import Mathlib

/-!
Verification of `scripts/wilson_ci.py`: Wilson score confidence intervals for
binomial proportions.

The numeric core (`normal_quantile`, `wilson_ci`) is embedded over `ℝ`
(idealized real arithmetic in place of IEEE doubles, with the exact decimal
constants of the source).  Python `raise ValueError` is modelled by `Option`
(`none` = the call fails).  The CLI layer (`parse_result`, `main`) is embedded
over `List Char` / an `Args` record mirroring the parsed argparse namespace;
the printed table is modelled by the data each cell is rendered from.
-/

open Real

/-- Break-point `plow = 0.02425` of the Acklam rational approximation. -/
def plow : ℝ := 0.02425

/-- Break-point `phigh = 1 - plow`. -/
def phigh : ℝ := 1 - plow

/-- Numerator polynomial of the central regime (coefficient list `a`),
in the Horner form of the source. -/
def anum (r : ℝ) : ℝ :=
  (((((-39.69683028665376) * r + 220.9460984245205) * r + (-275.9285104469687)) * r +
        138.357751867269) * r + (-30.66479806614716)) * r + 2.506628277459239

/-- Denominator polynomial of the central regime (coefficient list `b`,
constant term 1). -/
def bden (r : ℝ) : ℝ :=
  (((((-54.47609879822406) * r + 161.5858368580409) * r + (-155.6989798598866)) * r +
        66.80131188771972) * r + (-13.28068155288572)) * r + 1

/-- Numerator polynomial of the tail regimes (coefficient list `c`). -/
def cnum (q : ℝ) : ℝ :=
  (((((-0.007784894002430293) * q + (-0.3223964580411365)) * q + (-2.400758277161838)) * q +
        (-2.549732539343734)) * q + 4.374664141464968) * q + 2.938163982698783

/-- Denominator polynomial of the tail regimes (coefficient list `d`,
constant term 1). -/
def cden (q : ℝ) : ℝ :=
  (((0.007784695709041462 * q + 0.3224671290700398) * q + 2.445134137142996) * q +
      3.754408661907416) * q + 1

/-- Value computed by `normal_quantile` once the domain guard has passed:
the three-regime Acklam rational approximation of the inverse normal CDF. -/
noncomputable def normal_quantile_val (p : ℝ) : ℝ :=
  if p < plow then
    cnum (Real.sqrt (-2 * Real.log p)) / cden (Real.sqrt (-2 * Real.log p))
  else if p > phigh then
    (-(cnum (Real.sqrt (-2 * Real.log (1 - p))))) / cden (Real.sqrt (-2 * Real.log (1 - p)))
  else
    anum ((p - 0.5) * (p - 0.5)) * (p - 0.5) / bden ((p - 0.5) * (p - 0.5))

/-- `normal_quantile(p)` of the source: `none` models `raise ValueError`
when `p` is outside the open interval `(0, 1)`. -/
noncomputable def normal_quantile (p : ℝ) : Option ℝ :=
  if 0 < p ∧ p < 1 then some (normal_quantile_val p) else none

/-- `wilson_ci(k, n, conf)` of the source.  `none` models the `ValueError`
raised by the three argument guards (the inner `normal_quantile` call never
fails for `conf ∈ (0,1)`, as proved below). -/
noncomputable def wilson_ci (k n : ℤ) (conf : ℝ) : Option (ℝ × ℝ) :=
  if n ≤ 0 then none
  else if ¬(0 ≤ k ∧ k ≤ n) then none
  else if ¬(0 < conf ∧ conf < 1) then none
  else
    match normal_quantile (1 - (1 - conf) / 2) with
    | none => none
    | some z =>
      let phat : ℝ := (k : ℝ) / (n : ℝ)
      let z2 : ℝ := z * z
      let denom : ℝ := 1 + z2 / (n : ℝ)
      let center : ℝ := (phat + z2 / (2 * (n : ℝ))) / denom
      let half_width : ℝ :=
        z * Real.sqrt ((phat * (1 - phat) + z2 / (4 * (n : ℝ))) / (n : ℝ)) / denom
      some (max 0 (center - half_width), min 1 (center + half_width))

/-- Claim C4: the quantile function fails with a `DomainError` iff its
argument `p` satisfies `p ≤ 0` or `p ≥ 1`; for every `p` strictly between
0 and 1 it returns a value without failing. -/
theorem normal_quantile_raises_iff (p : ℝ) :
    normal_quantile p = none ↔ p ≤ 0 ∨ 1 ≤ p := by
  unfold normal_quantile
  split_ifs with h
  · simp only [reduceCtorEq, false_iff]
    push_neg
    exact ⟨h.1, h.2⟩
  · push_neg at h
    simp only [true_iff]
    by_contra hc
    push_neg at hc
    exact absurd (h hc.1) (not_le.mpr hc.2)

/-- Critical value `z` used by `wilson_ci`: the quantile value at
`1 - alpha/2` where `alpha = 1 - conf`. -/
noncomputable def wz (conf : ℝ) : ℝ := normal_quantile_val (1 - (1 - conf) / 2)

/-- The `center` expression of `wilson_ci`, as a function of `phat`, `n` and `z`. -/
noncomputable def wcenter (phat nn z : ℝ) : ℝ :=
  (phat + z * z / (2 * nn)) / (1 + z * z / nn)

/-- The `half_width` expression of `wilson_ci`, as a function of `phat`, `n` and `z`. -/
noncomputable def whalf (phat nn z : ℝ) : ℝ :=
  z * Real.sqrt ((phat * (1 - phat) + z * z / (4 * nn)) / nn) / (1 + z * z / nn)

lemma wilson_ci_eq {k n : ℤ} {conf : ℝ} (h1 : 0 < n) (h2 : 0 ≤ k) (h2' : k ≤ n)
    (h3 : 0 < conf) (h3' : conf < 1) :
    wilson_ci k n conf = some
      (max 0 (wcenter ((k : ℝ) / (n : ℝ)) (n : ℝ) (wz conf) -
              whalf ((k : ℝ) / (n : ℝ)) (n : ℝ) (wz conf)),
       min 1 (wcenter ((k : ℝ) / (n : ℝ)) (n : ℝ) (wz conf) +
              whalf ((k : ℝ) / (n : ℝ)) (n : ℝ) (wz conf))) := by
  unfold wilson_ci
  rw [if_neg (not_le.mpr h1), if_neg (not_not_intro ⟨h2, h2'⟩),
    if_neg (not_not_intro ⟨h3, h3'⟩)]
  have harg : 0 < 1 - (1 - conf) / 2 ∧ 1 - (1 - conf) / 2 < 1 :=
    ⟨by linarith, by linarith⟩
  rw [show normal_quantile (1 - (1 - conf) / 2) = some (wz conf) from if_pos harg]
  rfl

/-- Claim C3: `wilson_ci(k, n, c)` fails with a `DomainError` iff `n ≤ 0`,
or `k` is outside `[0, n]`, or `c` is outside the open interval `(0, 1)`;
on every other input it returns a result.  (The guards fire before any
computation; in particular `normal_quantile` never fails on the derived
argument `1 - (1 - c)/2`.) -/
theorem wilson_ci_raises_iff (k n : ℤ) (conf : ℝ) :
    wilson_ci k n conf = none ↔
      n ≤ 0 ∨ k < 0 ∨ n < k ∨ conf ≤ 0 ∨ 1 ≤ conf := by
  by_cases h1 : n ≤ 0
  · constructor
    · intro _; exact Or.inl h1
    · intro _; unfold wilson_ci; rw [if_pos h1]
  by_cases h2 : 0 ≤ k ∧ k ≤ n
  · by_cases h3 : 0 < conf ∧ conf < 1
    · rw [wilson_ci_eq (not_le.mp h1) h2.1 h2.2 h3.1 h3.2]
      simp only [reduceCtorEq, false_iff]
      push_neg
      exact ⟨not_le.mp h1, h2.1, h2.2, h3.1, h3.2⟩
    · have hnone : wilson_ci k n conf = none := by
        unfold wilson_ci
        rw [if_neg h1, if_neg (not_not_intro h2), if_pos h3]
      rw [hnone]
      simp only [true_iff]
      push_neg at h3
      rcases le_or_lt conf 0 with hc | hc
      · exact Or.inr (Or.inr (Or.inr (Or.inl hc)))
      · exact Or.inr (Or.inr (Or.inr (Or.inr (h3 hc))))
  · have hnone : wilson_ci k n conf = none := by
      unfold wilson_ci
      rw [if_neg h1, if_pos h2]
    rw [hnone]
    simp only [true_iff]
    push_neg at h2
    rcases lt_or_le k 0 with hk | hk
    · exact Or.inr (Or.inl hk)
    · exact Or.inr (Or.inr (Or.inl (h2 hk)))

lemma normal_quantile_val_symm {p : ℝ} (hp0 : 0 < p) (hp1 : p < 1) :
    normal_quantile_val (1 - p) = -normal_quantile_val p := by
  unfold normal_quantile_val
  by_cases hA : p < plow
  · have h1 : ¬(1 - p < plow) := by unfold plow at *; norm_num; linarith
    have h2 : 1 - p > phigh := by unfold phigh plow at *; linarith
    rw [if_pos hA, if_neg h1, if_pos h2,
      show (1 : ℝ) - (1 - p) = p from by ring, neg_div]
  · by_cases hB : p > phigh
    · have h1 : 1 - p < plow := by unfold phigh plow at *; linarith
      rw [if_neg hA, if_pos hB, if_pos h1, neg_div, neg_neg]
    · have h1 : ¬(1 - p < plow) := by unfold phigh plow at *; push_neg at *; linarith
      have h2 : ¬(1 - p > phigh) := by unfold phigh plow at *; push_neg at *; linarith
      rw [if_neg hA, if_neg hB, if_neg h1, if_neg h2,
        show ((1 : ℝ) - p - 0.5) * ((1 : ℝ) - p - 0.5) = (p - 0.5) * (p - 0.5) from by ring,
        show (1 : ℝ) - p - 0.5 = -(p - 0.5) from by ring, mul_neg, neg_div]

/-- Claim C7: for every `p` in the open interval `(0,1)`, `quantile(1-p)`
equals `-quantile(p)` up to an absolute difference of at most `1e-6`
(in fact the two values are exactly equal and opposite in this model). -/
theorem normal_quantile_symm (p : ℝ) (hp0 : 0 < p) (hp1 : p < 1) :
    ∃ z1 z2, normal_quantile p = some z1 ∧ normal_quantile (1 - p) = some z2 ∧
      |z2 - (-z1)| ≤ 1e-6 := by
  refine ⟨normal_quantile_val p, normal_quantile_val (1 - p),
    if_pos ⟨hp0, hp1⟩, if_pos ⟨by linarith, by linarith⟩, ?_⟩
  rw [normal_quantile_val_symm hp0 hp1]
  norm_num

theorem normal_quantile_symm_witness :
    ∃ z1 z2, normal_quantile (1 / 4) = some z1 ∧
      normal_quantile (1 - 1 / 4) = some z2 ∧ |z2 - (-z1)| ≤ 1e-6 :=
  normal_quantile_symm (1 / 4) (by norm_num) (by norm_num)

/-- Claim C8: `quantile(0.975)` returns a value within `1e-6` of
`1.959963985`, the standard 95 percent two-sided critical value. -/
theorem normal_quantile_known_value :
    ∃ z, normal_quantile 0.975 = some z ∧ |z - 1.959963985| ≤ 1e-6 := by
  refine ⟨normal_quantile_val 0.975, if_pos (by norm_num), ?_⟩
  have hA : ¬((0.975 : ℝ) < plow) := by unfold plow; norm_num
  have hB : ¬((0.975 : ℝ) > phigh) := by unfold phigh plow; norm_num
  unfold normal_quantile_val
  rw [if_neg hA, if_neg hB]
  have hb : (0 : ℝ) < bden ((0.975 - 0.5) * (0.975 - 0.5)) := by unfold bden; norm_num
  rw [abs_le]
  constructor
  · have h : (1.959963985 - 1e-6 : ℝ) ≤
        anum ((0.975 - 0.5) * (0.975 - 0.5)) * (0.975 - 0.5) /
          bden ((0.975 - 0.5) * (0.975 - 0.5)) := by
      rw [le_div_iff hb]; unfold anum bden; norm_num
    linarith
  · have h : anum ((0.975 - 0.5) * (0.975 - 0.5)) * (0.975 - 0.5) /
        bden ((0.975 - 0.5) * (0.975 - 0.5)) ≤ (1.959963985 + 1e-6 : ℝ) := by
      rw [div_le_iff hb]; unfold anum bden; norm_num
    linarith

/-!
Positivity certificates for the Acklam polynomials.  Each proof rests on
the fact that the polynomial, re-expanded around the relevant endpoint,
has coefficients of a single sign; `nlinarith` recovers the (unique)
nonnegative combination of the powers of the distance to the endpoint.
`0.2263380625 = (phigh - 0.5)^2` is the largest `r` reachable in the
central regime.
-/

lemma anum_pos {r : ℝ} (h : r ≤ 0.2263380625) : 0 < anum r := by
  have hs : (0 : ℝ) ≤ 0.2263380625 - r := by linarith
  have h2 : (0 : ℝ) ≤ (0.2263380625 - r) ^ 2 := by positivity
  have h3 : (0 : ℝ) ≤ (0.2263380625 - r) ^ 3 := by positivity
  have h4 : (0 : ℝ) ≤ (0.2263380625 - r) ^ 4 := by positivity
  have h5 : (0 : ℝ) ≤ (0.2263380625 - r) ^ 5 := by positivity
  unfold anum
  nlinarith [hs, h2, h3, h4, h5]

lemma bden_pos {r : ℝ} (h : r ≤ 0.2263380625) : 0 < bden r := by
  have hs : (0 : ℝ) ≤ 0.2263380625 - r := by linarith
  have h2 : (0 : ℝ) ≤ (0.2263380625 - r) ^ 2 := by positivity
  have h3 : (0 : ℝ) ≤ (0.2263380625 - r) ^ 3 := by positivity
  have h4 : (0 : ℝ) ≤ (0.2263380625 - r) ^ 4 := by positivity
  have h5 : (0 : ℝ) ≤ (0.2263380625 - r) ^ 5 := by positivity
  unfold bden
  nlinarith [hs, h2, h3, h4, h5]

lemma cnum_neg {q : ℝ} (h : 2.5 ≤ q) : cnum q < 0 := by
  have hs : (0 : ℝ) ≤ q - 2.5 := by linarith
  have h2 : (0 : ℝ) ≤ (q - 2.5) ^ 2 := by positivity
  have h3 : (0 : ℝ) ≤ (q - 2.5) ^ 3 := by positivity
  have h4 : (0 : ℝ) ≤ (q - 2.5) ^ 4 := by positivity
  have h5 : (0 : ℝ) ≤ (q - 2.5) ^ 5 := by positivity
  unfold cnum
  nlinarith [hs, h2, h3, h4, h5]

lemma cden_pos {q : ℝ} (h : 0 ≤ q) : 0 < cden q := by
  have h2 : (0 : ℝ) ≤ q ^ 2 := by positivity
  have h3 : (0 : ℝ) ≤ q ^ 3 := by positivity
  have h4 : (0 : ℝ) ≤ q ^ 4 := by positivity
  unfold cden
  nlinarith [h, h2, h3, h4]

lemma zval_central_eq {p : ℝ} (h1 : ¬p < plow) (h2 : ¬p > phigh) :
    normal_quantile_val p =
      anum ((p - 0.5) * (p - 0.5)) * (p - 0.5) / bden ((p - 0.5) * (p - 0.5)) := by
  unfold normal_quantile_val
  rw [if_neg h1, if_neg h2]

lemma zval_tail_eq {p : ℝ} (h2 : p > phigh) :
    normal_quantile_val p =
      (-(cnum (Real.sqrt (-2 * Real.log (1 - p))))) /
        cden (Real.sqrt (-2 * Real.log (1 - p))) := by
  have h1 : ¬p < plow := by unfold phigh plow at *; push_neg; linarith
  unfold normal_quantile_val
  rw [if_neg h1, if_pos h2]

/-- The certified lower bound `2.72739387 ≤ sqrt(-2 log plow)`, i.e.
`exp(2.72739387^2 / 2) ≤ 1/plow`, via a 15-term Taylor expansion of `exp`
at one quarter of the exponent. -/
lemma exp_tail_bound :
    Real.exp (74386773221135769 / 20000000000000000) < 4000 / 97 := by
  have ht0 : (0 : ℝ) ≤ 74386773221135769 / 80000000000000000 := by norm_num
  have ht1 : (74386773221135769 : ℝ) / 80000000000000000 ≤ 1 := by norm_num
  have key := @Real.exp_bound' (74386773221135769 / 80000000000000000) ht0 ht1 15 (by norm_num)
  have hsum : (∑ m ∈ Finset.range 15,
        ((74386773221135769 : ℝ) / 80000000000000000) ^ m / m.factorial) +
        ((74386773221135769 : ℝ) / 80000000000000000) ^ 15 * (15 + 1) /
          ((Nat.factorial 15) * 15) ≤ 2.53409016985181 := by
    simp only [Finset.sum_range_succ, Finset.sum_range_zero, Nat.factorial]
    norm_num
  have key2 : Real.exp (74386773221135769 / 80000000000000000) ≤ 2.53409016985181 := by
    calc Real.exp (74386773221135769 / 80000000000000000) ≤ _ := key
    _ ≤ 2.53409016985181 := by exact_mod_cast hsum
  have hpow : Real.exp (74386773221135769 / 20000000000000000) =
      Real.exp (74386773221135769 / 80000000000000000) ^ 4 := by
    rw [← Real.exp_nat_mul]
    norm_num
  rw [hpow]
  calc Real.exp (74386773221135769 / 80000000000000000) ^ 4
      ≤ 2.53409016985181 ^ 4 := by
        exact pow_le_pow_left (Real.exp_nonneg _) key2 4
    _ < 4000 / 97 := by norm_num

lemma log_plow_bound : (2.72739387 : ℝ) ^ 2 ≤ -2 * Real.log plow := by
  have h1 : Real.log plow ≤ -(74386773221135769 / 20000000000000000) := by
    rw [Real.log_le_iff_le_exp (by unfold plow; norm_num)]
    rw [Real.exp_neg]
    rw [show (plow : ℝ) = ((4000 / 97 : ℝ))⁻¹ from by unfold plow; norm_num]
    exact inv_le_inv_of_le (by positivity) exp_tail_bound.le
  nlinarith [h1]

lemma tail_s_ge {p : ℝ} (hp : p > phigh) (hp1 : p < 1) :
    2.72739387 ≤ Real.sqrt (-2 * Real.log (1 - p)) := by
  have h1p : 0 < 1 - p := by linarith
  have hlt : 1 - p < plow := by unfold phigh at hp; linarith
  have hlog : Real.log (1 - p) < Real.log plow := Real.log_lt_log h1p hlt
  calc (2.72739387 : ℝ) = Real.sqrt ((2.72739387 : ℝ) ^ 2) :=
        (Real.sqrt_sq (by norm_num)).symm
    _ ≤ Real.sqrt (-2 * Real.log (1 - p)) := by
        apply Real.sqrt_le_sqrt
        nlinarith [log_plow_bound, hlog]

lemma zval_nonneg {p : ℝ} (h12 : 1 / 2 ≤ p) (hp1 : p < 1) :
    0 ≤ normal_quantile_val p := by
  have hA : ¬p < plow := by unfold plow; push_neg; linarith
  by_cases hB : p > phigh
  · rw [zval_tail_eq hB]
    have hs := tail_s_ge hB hp1
    have h1 : cnum (Real.sqrt (-2 * Real.log (1 - p))) < 0 := cnum_neg (by linarith)
    have h2 : 0 < cden (Real.sqrt (-2 * Real.log (1 - p))) := cden_pos (by linarith)
    exact div_nonneg (by linarith) h2.le
  · rw [zval_central_eq hA hB]
    push_neg at hB
    have hB' : p ≤ 0.97575 := by unfold phigh plow at hB; linarith
    have hr : (p - 0.5) * (p - 0.5) ≤ 0.2263380625 := by nlinarith
    have h1 := anum_pos hr
    have h2 := bden_pos hr
    exact div_nonneg (mul_nonneg h1.le (by linarith)) h2.le

lemma wz_nonneg {conf : ℝ} (h3 : 0 < conf) (h3' : conf < 1) : 0 ≤ wz conf := by
  unfold wz
  exact zval_nonneg (by linarith) (by linarith)

lemma wcenter_w (phat nn z : ℝ) (h : nn ≠ 0) :
    wcenter phat nn z = (phat + z * z * (1 / nn) / 2) / (1 + z * z * (1 / nn)) := by
  unfold wcenter
  have h1 : z * z / (2 * nn) = z * z * (1 / nn) / 2 := by
    rw [mul_one_div, div_div, mul_comm nn 2]
  have h2 : z * z / nn = z * z * (1 / nn) := (mul_one_div _ _).symm
  rw [h1, h2]

lemma whalf_w (phat nn z : ℝ) (h : nn ≠ 0) :
    whalf phat nn z =
      z * Real.sqrt ((phat * (1 - phat) + z * z * (1 / nn) / 4) * (1 / nn)) /
        (1 + z * z * (1 / nn)) := by
  unfold whalf
  have h1 : (phat * (1 - phat) + z * z / (4 * nn)) / nn =
      (phat * (1 - phat) + z * z * (1 / nn) / 4) * (1 / nn) := by
    field_simp
    ring
  have h2 : z * z / nn = z * z * (1 / nn) := (mul_one_div _ _).symm
  rw [h1, h2]

lemma core_upper (phat w z G : ℝ) (hp0 : 0 ≤ phat) (hp1 : phat ≤ 1) (hw : 0 < w)
    (hz : 0 ≤ z) (hG : 0 ≤ G)
    (hG2 : G * G = (phat * (1 - phat) + z * z * w / 4) * w) :
    z * G ≤ (1 - phat) + z * z * w / 2 := by
  have hzG2 : z * z * (G * G) = z * z * ((phat * (1 - phat) + z * z * w / 4) * w) := by
    rw [hG2]
  have ha : 0 ≤ z * G := mul_nonneg hz hG
  have hb : 0 ≤ (1 - phat) + z * z * w / 2 := by
    have : 0 ≤ z * z * w / 2 := by positivity
    linarith
  have key : (z * G) * (z * G) ≤ ((1 - phat) + z * z * w / 2) * ((1 - phat) + z * z * w / 2) := by
    nlinarith [hzG2, sq_nonneg (1 - phat),
      mul_nonneg (mul_nonneg (mul_nonneg hz hz) hw.le) (sq_nonneg (1 - phat))]
  nlinarith [key, ha, hb]

lemma core_lower (phat w z G : ℝ) (hp0 : 0 ≤ phat) (hp1 : phat ≤ 1) (hw : 0 < w)
    (hz : 0 ≤ z) (hG : 0 ≤ G)
    (hG2 : G * G = (phat * (1 - phat) + z * z * w / 4) * w) :
    z * G ≤ phat + z * z * w / 2 := by
  have hzG2 : z * z * (G * G) = z * z * ((phat * (1 - phat) + z * z * w / 4) * w) := by
    rw [hG2]
  have ha : 0 ≤ z * G := mul_nonneg hz hG
  have hb : 0 ≤ phat + z * z * w / 2 := by
    have : 0 ≤ z * z * w / 2 := by positivity
    linarith
  have key : (z * G) * (z * G) ≤ (phat + z * z * w / 2) * (phat + z * z * w / 2) := by
    nlinarith [hzG2, sq_nonneg phat,
      mul_nonneg (mul_nonneg (mul_nonneg hz hz) hw.le) (sq_nonneg phat)]
  nlinarith [key, ha, hb]

lemma core_left_of_phat (phat w z G : ℝ) (hp0 : 0 ≤ phat) (hp1 : phat ≤ 1) (hw : 0 < w)
    (hz : 0 ≤ z) (hG : 0 ≤ G)
    (hG2 : G * G = (phat * (1 - phat) + z * z * w / 4) * w) :
    z * z * w * (1 / 2 - phat) ≤ z * G := by
  have ha : 0 ≤ z * G := mul_nonneg hz hG
  rcases le_or_lt (1 / 2) phat with hc | hc
  · have : z * z * w * (1 / 2 - phat) ≤ 0 := by
      have h1 : 0 ≤ z * z * w := by positivity
      nlinarith [h1]
    linarith
  · have hzG2 : z * z * (G * G) = z * z * ((phat * (1 - phat) + z * z * w / 4) * w) := by
      rw [hG2]
    have hL : 0 ≤ z * z * w * (1 / 2 - phat) := by
      have h1 : 0 ≤ z * z * w := by positivity
      nlinarith [h1]
    have key : (z * z * w * (1 / 2 - phat)) * (z * z * w * (1 / 2 - phat)) ≤
        (z * G) * (z * G) := by
      have ht : 0 ≤ phat * (1 - phat) := mul_nonneg hp0 (by linarith)
      nlinarith [hzG2, mul_nonneg (mul_nonneg (mul_nonneg hz hz) hw.le) ht,
        mul_nonneg (mul_nonneg (mul_nonneg (mul_nonneg (mul_nonneg hz hz) hz) hz)
          (mul_nonneg hw.le hw.le)) ht]
    nlinarith [key, ha, hL]

lemma core_right_of_phat (phat w z G : ℝ) (hp0 : 0 ≤ phat) (hp1 : phat ≤ 1) (hw : 0 < w)
    (hz : 0 ≤ z) (hG : 0 ≤ G)
    (hG2 : G * G = (phat * (1 - phat) + z * z * w / 4) * w) :
    z * z * w * (phat - 1 / 2) ≤ z * G := by
  have h := core_left_of_phat (1 - phat) w z G (by linarith) (by linarith) hw hz hG
    (by rw [hG2]; ring_nf)
  have e : (1 : ℝ) / 2 - (1 - phat) = phat - 1 / 2 := by ring
  rw [e] at h
  exact h

lemma wilson_bundle (phat nn z : ℝ) (hp0 : 0 ≤ phat) (hp1 : phat ≤ 1) (hn : 1 ≤ nn)
    (hz : 0 ≤ z) :
    0 ≤ whalf phat nn z ∧
    0 ≤ wcenter phat nn z - whalf phat nn z ∧
    wcenter phat nn z + whalf phat nn z ≤ 1 ∧
    wcenter phat nn z - whalf phat nn z ≤ phat ∧
    phat ≤ wcenter phat nn z + whalf phat nn z := by
  have hnn : (0 : ℝ) < nn := by linarith
  have hw : (0 : ℝ) < 1 / nn := by positivity
  rw [wcenter_w phat nn z hnn.ne', whalf_w phat nn z hnn.ne']
  have ht : 0 ≤ phat * (1 - phat) := mul_nonneg hp0 (by linarith)
  have hEw : 0 ≤ (phat * (1 - phat) + z * z * (1 / nn) / 4) * (1 / nn) := by
    apply mul_nonneg _ hw.le
    have : 0 ≤ z * z * (1 / nn) / 4 := by positivity
    linarith
  set G := Real.sqrt ((phat * (1 - phat) + z * z * (1 / nn) / 4) * (1 / nn)) with hGdef
  have hG : 0 ≤ G := Real.sqrt_nonneg _
  have hG2 : G * G = (phat * (1 - phat) + z * z * (1 / nn) / 4) * (1 / nn) :=
    Real.mul_self_sqrt hEw
  have hden : (0 : ℝ) < 1 + z * z * (1 / nn) := by positivity
  have c1 := core_lower phat (1 / nn) z G hp0 hp1 hw hz hG hG2
  have c2 := core_upper phat (1 / nn) z G hp0 hp1 hw hz hG hG2
  have c3 := core_left_of_phat phat (1 / nn) z G hp0 hp1 hw hz hG hG2
  have c4 := core_right_of_phat phat (1 / nn) z G hp0 hp1 hw hz hG hG2
  refine ⟨?_, ?_, ?_, ?_, ?_⟩
  · exact div_nonneg (mul_nonneg hz hG) hden.le
  · rw [div_sub_div_same]
    apply div_nonneg _ hden.le
    linarith
  · rw [div_add_div_same, div_le_one hden]
    linarith
  · rw [div_sub_div_same, div_le_iff hden]
    nlinarith [c3]
  · rw [div_add_div_same, le_div_iff hden]
    nlinarith [c4]

/-- Claim C1: for every successes `k`, trials `n`, confidence `c` with
`0 ≤ k ≤ n`, `n > 0` and `0 < c < 1`, the pair `(low, high)` returned by
`wilson_ci(k, n, c)` satisfies `0 ≤ low ≤ high ≤ 1`. -/
theorem wilson_ci_bounds (k n : ℤ) (conf : ℝ) (hk0 : 0 ≤ k) (hkn : k ≤ n)
    (hn : 0 < n) (hc0 : 0 < conf) (hc1 : conf < 1) :
    ∃ lo hi, wilson_ci k n conf = some (lo, hi) ∧ 0 ≤ lo ∧ lo ≤ hi ∧ hi ≤ 1 := by
  have hncast : (0 : ℝ) < (n : ℝ) := by exact_mod_cast hn
  have hphat0 : (0 : ℝ) ≤ (k : ℝ) / (n : ℝ) :=
    div_nonneg (by exact_mod_cast hk0) hncast.le
  have hphat1 : (k : ℝ) / (n : ℝ) ≤ 1 := by
    rw [div_le_one hncast]; exact_mod_cast hkn
  have hnn : (1 : ℝ) ≤ (n : ℝ) := by exact_mod_cast hn
  have hz := wz_nonneg hc0 hc1
  obtain ⟨b1, b2, b3, b4, b5⟩ :=
    wilson_bundle ((k : ℝ) / (n : ℝ)) (n : ℝ) (wz conf) hphat0 hphat1 hnn hz
  refine ⟨_, _, wilson_ci_eq hn hk0 hkn hc0 hc1, le_max_left 0 _, ?_, min_le_left 1 _⟩
  apply max_le
  · apply le_min (by norm_num)
    linarith
  · apply le_min
    · linarith
    · linarith

theorem wilson_ci_bounds_witness :
    ∃ lo hi, wilson_ci 1 2 (1 / 2) = some (lo, hi) ∧ 0 ≤ lo ∧ lo ≤ hi ∧ hi ≤ 1 :=
  wilson_ci_bounds 1 2 (1 / 2) (by norm_num) (by norm_num) (by norm_num)
    (by norm_num) (by norm_num)

/-- Claim C2: for every valid input (`0 ≤ k ≤ n`, `n > 0`, `0 < c < 1`),
the pair `(low, high)` returned by `wilson_ci(k, n, c)` brackets the sample
proportion: `low ≤ k/n ≤ high`. -/
theorem wilson_ci_brackets (k n : ℤ) (conf : ℝ) (hk0 : 0 ≤ k) (hkn : k ≤ n)
    (hn : 0 < n) (hc0 : 0 < conf) (hc1 : conf < 1) :
    ∃ lo hi, wilson_ci k n conf = some (lo, hi) ∧
      lo ≤ (k : ℝ) / (n : ℝ) ∧ (k : ℝ) / (n : ℝ) ≤ hi := by
  have hncast : (0 : ℝ) < (n : ℝ) := by exact_mod_cast hn
  have hphat0 : (0 : ℝ) ≤ (k : ℝ) / (n : ℝ) :=
    div_nonneg (by exact_mod_cast hk0) hncast.le
  have hphat1 : (k : ℝ) / (n : ℝ) ≤ 1 := by
    rw [div_le_one hncast]; exact_mod_cast hkn
  have hnn : (1 : ℝ) ≤ (n : ℝ) := by exact_mod_cast hn
  have hz := wz_nonneg hc0 hc1
  obtain ⟨b1, b2, b3, b4, b5⟩ :=
    wilson_bundle ((k : ℝ) / (n : ℝ)) (n : ℝ) (wz conf) hphat0 hphat1 hnn hz
  exact ⟨_, _, wilson_ci_eq hn hk0 hkn hc0 hc1, max_le hphat0 b4, le_min hphat1 b5⟩

theorem wilson_ci_brackets_witness :
    ∃ lo hi, wilson_ci 1 2 (1 / 2) = some (lo, hi) ∧
      lo ≤ ((1 : ℤ) : ℝ) / ((2 : ℤ) : ℝ) ∧ ((1 : ℤ) : ℝ) / ((2 : ℤ) : ℝ) ≤ hi :=
  wilson_ci_brackets 1 2 (1 / 2) (by norm_num) (by norm_num) (by norm_num)
    (by norm_num) (by norm_num)

lemma boundary_low (nn z : ℝ) (hn : 1 ≤ nn) (hz : 0 ≤ z) :
    wcenter 0 nn z - whalf 0 nn z = 0 := by
  have hnn : (0 : ℝ) < nn := by linarith
  unfold wcenter whalf
  have harg : ((0 : ℝ) * (1 - 0) + z * z / (4 * nn)) / nn = (z / (2 * nn)) ^ 2 := by
    field_simp
    ring
  rw [harg, Real.sqrt_sq (by positivity), div_sub_div_same,
    show (0 : ℝ) + z * z / (2 * nn) - z * (z / (2 * nn)) = 0 from by ring, zero_div]

lemma boundary_high (nn z : ℝ) (hn : 1 ≤ nn) (hz : 0 ≤ z) :
    wcenter 1 nn z + whalf 1 nn z = 1 := by
  have hnn : (0 : ℝ) < nn := by linarith
  unfold wcenter whalf
  have harg : ((1 : ℝ) * (1 - 1) + z * z / (4 * nn)) / nn = (z / (2 * nn)) ^ 2 := by
    field_simp
    ring
  have hden : (1 : ℝ) + z * z / nn ≠ 0 := by positivity
  rw [harg, Real.sqrt_sq (by positivity), div_add_div_same, div_eq_one_iff_eq hden]
  field_simp
  ring

/-- Claim C5: for every trials `n > 0` and confidence `c` in `(0,1)`:
`wilson_ci(0, n, c)` returns `low = 0`, and `wilson_ci(n, n, c)` returns
`high = 1`. -/
theorem wilson_ci_boundary (n : ℤ) (conf : ℝ) (hn : 0 < n) (hc0 : 0 < conf)
    (hc1 : conf < 1) :
    ∃ lo hi lo' hi', wilson_ci 0 n conf = some (lo, hi) ∧ lo = 0 ∧
      wilson_ci n n conf = some (lo', hi') ∧ hi' = 1 := by
  have hnn : (1 : ℝ) ≤ (n : ℝ) := by exact_mod_cast hn
  have hncast : (0 : ℝ) < (n : ℝ) := by linarith
  have hz := wz_nonneg hc0 hc1
  refine ⟨_, _, _, _, wilson_ci_eq hn le_rfl hn.le hc0 hc1, ?_,
    wilson_ci_eq hn hn.le le_rfl hc0 hc1, ?_⟩
  · simp only [Int.cast_zero, zero_div]
    rw [boundary_low (n : ℝ) (wz conf) hnn hz]
    exact max_self 0
  · rw [div_self hncast.ne', boundary_high (n : ℝ) (wz conf) hnn hz]
    exact min_self 1

theorem wilson_ci_boundary_witness :
    ∃ lo hi lo' hi', wilson_ci 0 2 (1 / 2) = some (lo, hi) ∧ lo = 0 ∧
      wilson_ci 2 2 (1 / 2) = some (lo', hi') ∧ hi' = 1 :=
  wilson_ci_boundary 2 (1 / 2) (by norm_num) (by norm_num) (by norm_num)

/-!
Monotonicity of the quantile approximation.  `anumD`, `bdenD`, `cnumD`,
`cdenD` are the derivatives of the four Horner polynomials; `centralF` and
`tailG` are the central- and upper-tail-regime value functions of
`normal_quantile_val`.
-/

def anumD (r : ℝ) : ℝ :=
  ((((-198.4841514332688) * r + 883.784393698082) * r + (-827.7855313409061)) * r +
      276.715503734538) * r + (-30.66479806614716)

def bdenD (r : ℝ) : ℝ :=
  ((((-272.3804939911203) * r + 646.3433474321636) * r + (-467.0969395796598)) * r +
      133.60262377543944) * r + (-13.28068155288572)

def cnumD (q : ℝ) : ℝ :=
  ((((-0.038924470012151465) * q + (-1.289585832164546)) * q + (-7.202274831485514)) * q +
      (-5.099465078687468)) * q + 4.374664141464968

def cdenD (q : ℝ) : ℝ :=
  ((0.031138782836165848 * q + 0.9674013872101194) * q + 4.890268274285992) * q +
    3.754408661907416

lemma horner_step {f : ℝ → ℝ} {d : ℝ} (c : ℝ) {x : ℝ} (hf : HasDerivAt f d x) :
    HasDerivAt (fun y => f y * y + c) (d * x + f x) x := by
  simpa using (hf.mul (hasDerivAt_id x)).add_const c

lemma anum_deriv (x : ℝ) : HasDerivAt anum (anumD x) x := by
  have h0 : HasDerivAt (fun y : ℝ => (-39.69683028665376) * y + (220.9460984245205))
      ((-39.69683028665376) : ℝ) x := by
    simpa using ((hasDerivAt_id x).const_mul ((-39.69683028665376) : ℝ)).add_const ((220.9460984245205) : ℝ)
  have h1 := horner_step ((-275.9285104469687) : ℝ) h0
  have h2 := horner_step ((138.357751867269) : ℝ) h1
  have h3 := horner_step ((-30.66479806614716) : ℝ) h2
  have h4 := horner_step ((2.506628277459239) : ℝ) h3
  have e : anumD x = (((((-39.69683028665376) * x + ((-39.69683028665376) * x + (220.9460984245205))) * x + (((-39.69683028665376) * x + (220.9460984245205)) * x + (-275.9285104469687))) * x + ((((-39.69683028665376) * x + (220.9460984245205)) * x + (-275.9285104469687)) * x + (138.357751867269))) * x + (((((-39.69683028665376) * x + (220.9460984245205)) * x + (-275.9285104469687)) * x + (138.357751867269)) * x + (-30.66479806614716))) := by
    unfold anumD; ring
  rw [e]
  exact h4

lemma bden_deriv (x : ℝ) : HasDerivAt bden (bdenD x) x := by
  have h0 : HasDerivAt (fun y : ℝ => (-54.47609879822406) * y + (161.5858368580409))
      ((-54.47609879822406) : ℝ) x := by
    simpa using ((hasDerivAt_id x).const_mul ((-54.47609879822406) : ℝ)).add_const ((161.5858368580409) : ℝ)
  have h1 := horner_step ((-155.6989798598866) : ℝ) h0
  have h2 := horner_step ((66.80131188771972) : ℝ) h1
  have h3 := horner_step ((-13.28068155288572) : ℝ) h2
  have h4 := horner_step ((1) : ℝ) h3
  have e : bdenD x = (((((-54.47609879822406) * x + ((-54.47609879822406) * x + (161.5858368580409))) * x + (((-54.47609879822406) * x + (161.5858368580409)) * x + (-155.6989798598866))) * x + ((((-54.47609879822406) * x + (161.5858368580409)) * x + (-155.6989798598866)) * x + (66.80131188771972))) * x + (((((-54.47609879822406) * x + (161.5858368580409)) * x + (-155.6989798598866)) * x + (66.80131188771972)) * x + (-13.28068155288572))) := by
    unfold bdenD; ring
  rw [e]
  exact h4

lemma cnum_deriv (x : ℝ) : HasDerivAt cnum (cnumD x) x := by
  have h0 : HasDerivAt (fun y : ℝ => (-0.007784894002430293) * y + (-0.3223964580411365))
      ((-0.007784894002430293) : ℝ) x := by
    simpa using ((hasDerivAt_id x).const_mul ((-0.007784894002430293) : ℝ)).add_const ((-0.3223964580411365) : ℝ)
  have h1 := horner_step ((-2.400758277161838) : ℝ) h0
  have h2 := horner_step ((-2.549732539343734) : ℝ) h1
  have h3 := horner_step ((4.374664141464968) : ℝ) h2
  have h4 := horner_step ((2.938163982698783) : ℝ) h3
  have e : cnumD x = (((((-0.007784894002430293) * x + ((-0.007784894002430293) * x + (-0.3223964580411365))) * x + (((-0.007784894002430293) * x + (-0.3223964580411365)) * x + (-2.400758277161838))) * x + ((((-0.007784894002430293) * x + (-0.3223964580411365)) * x + (-2.400758277161838)) * x + (-2.549732539343734))) * x + (((((-0.007784894002430293) * x + (-0.3223964580411365)) * x + (-2.400758277161838)) * x + (-2.549732539343734)) * x + (4.374664141464968))) := by
    unfold cnumD; ring
  rw [e]
  exact h4

lemma cden_deriv (x : ℝ) : HasDerivAt cden (cdenD x) x := by
  have h0 : HasDerivAt (fun y : ℝ => (0.007784695709041462) * y + (0.3224671290700398))
      ((0.007784695709041462) : ℝ) x := by
    simpa using ((hasDerivAt_id x).const_mul ((0.007784695709041462) : ℝ)).add_const ((0.3224671290700398) : ℝ)
  have h1 := horner_step ((2.445134137142996) : ℝ) h0
  have h2 := horner_step ((3.754408661907416) : ℝ) h1
  have h3 := horner_step ((1) : ℝ) h2
  have e : cdenD x = ((((0.007784695709041462) * x + ((0.007784695709041462) * x + (0.3224671290700398))) * x + (((0.007784695709041462) * x + (0.3224671290700398)) * x + (2.445134137142996))) * x + ((((0.007784695709041462) * x + (0.3224671290700398)) * x + (2.445134137142996)) * x + (3.754408661907416))) := by
    unfold cdenD; ring
  rw [e]
  exact h3

set_option maxHeartbeats 1000000 in
/-- Numerator of the derivative of the central-regime value function,
as a polynomial in `r = (p - 0.5)^2`; positive on `r ≤ (phigh - 0.5)^2`. -/
lemma NN_pos {r : ℝ} (h : r ≤ 0.2263380625) :
    0 < (anum r + 2 * r * anumD r) * bden r - 2 * r * anum r * bdenD r := by
  have hs : (0 : ℝ) ≤ 0.2263380625 - r := by linarith
  have h2 : (0 : ℝ) ≤ (0.2263380625 - r) ^ 2 := by positivity
  have h3 : (0 : ℝ) ≤ (0.2263380625 - r) ^ 3 := by positivity
  have h4 : (0 : ℝ) ≤ (0.2263380625 - r) ^ 4 := by positivity
  have h5 : (0 : ℝ) ≤ (0.2263380625 - r) ^ 5 := by positivity
  have h6 : (0 : ℝ) ≤ (0.2263380625 - r) ^ 6 := by positivity
  have h7 : (0 : ℝ) ≤ (0.2263380625 - r) ^ 7 := by positivity
  have h8 : (0 : ℝ) ≤ (0.2263380625 - r) ^ 8 := by positivity
  have h9 : (0 : ℝ) ≤ (0.2263380625 - r) ^ 9 := by positivity
  have h10 : (0 : ℝ) ≤ (0.2263380625 - r) ^ 10 := by positivity
  unfold anum anumD bden bdenD
  nlinarith [hs, h2, h3, h4, h5, h6, h7, h8, h9, h10]

set_option maxHeartbeats 1000000 in
/-- Numerator of the derivative of `cnum/cden`; negative on `s ≥ 2.5`,
so the upper-tail value function `-cnum/cden` is increasing there. -/
lemma MM_neg {s : ℝ} (h : 2.5 ≤ s) :
    cnumD s * cden s - cnum s * cdenD s < 0 := by
  have hs : (0 : ℝ) ≤ s - 2.5 := by linarith
  have h2 : (0 : ℝ) ≤ (s - 2.5) ^ 2 := by positivity
  have h3 : (0 : ℝ) ≤ (s - 2.5) ^ 3 := by positivity
  have h4 : (0 : ℝ) ≤ (s - 2.5) ^ 4 := by positivity
  have h5 : (0 : ℝ) ≤ (s - 2.5) ^ 5 := by positivity
  have h6 : (0 : ℝ) ≤ (s - 2.5) ^ 6 := by positivity
  have h7 : (0 : ℝ) ≤ (s - 2.5) ^ 7 := by positivity
  have h8 : (0 : ℝ) ≤ (s - 2.5) ^ 8 := by positivity
  unfold cnum cnumD cden cdenD
  nlinarith [hs, h2, h3, h4, h5, h6, h7, h8]

/-- Central-regime value function of the quantile approximation. -/
noncomputable def centralF (p : ℝ) : ℝ :=
  anum ((p - 0.5) * (p - 0.5)) * (p - 0.5) / bden ((p - 0.5) * (p - 0.5))

/-- Derivative of `centralF`. -/
noncomputable def centralFD (p : ℝ) : ℝ :=
  ((anum ((p - 0.5) * (p - 0.5)) +
      2 * ((p - 0.5) * (p - 0.5)) * anumD ((p - 0.5) * (p - 0.5))) *
        bden ((p - 0.5) * (p - 0.5)) -
    2 * ((p - 0.5) * (p - 0.5)) * anum ((p - 0.5) * (p - 0.5)) *
      bdenD ((p - 0.5) * (p - 0.5))) /
    (bden ((p - 0.5) * (p - 0.5))) ^ 2

lemma centralF_hasDeriv {p : ℝ} (hb : bden ((p - 0.5) * (p - 0.5)) ≠ 0) :
    HasDerivAt centralF (centralFD p) p := by
  have hq : HasDerivAt (fun y : ℝ => y - 0.5) 1 p := (hasDerivAt_id p).sub_const 0.5
  have hr : HasDerivAt (fun y : ℝ => (y - 0.5) * (y - 0.5)) (p - 0.5 + (p - 0.5)) p := by
    simpa using hq.mul hq
  have hA : HasDerivAt (fun y : ℝ => anum ((y - 0.5) * (y - 0.5)))
      (anumD ((p - 0.5) * (p - 0.5)) * (p - 0.5 + (p - 0.5))) p := by
    simpa [Function.comp] using (anum_deriv ((p - 0.5) * (p - 0.5))).comp p hr
  have hB : HasDerivAt (fun y : ℝ => bden ((y - 0.5) * (y - 0.5)))
      (bdenD ((p - 0.5) * (p - 0.5)) * (p - 0.5 + (p - 0.5))) p := by
    simpa [Function.comp] using (bden_deriv ((p - 0.5) * (p - 0.5))).comp p hr
  have hN : HasDerivAt (fun y : ℝ => anum ((y - 0.5) * (y - 0.5)) * (y - 0.5))
      (anumD ((p - 0.5) * (p - 0.5)) * (p - 0.5 + (p - 0.5)) * (p - 0.5) +
        anum ((p - 0.5) * (p - 0.5)) * 1) p := hA.mul hq
  have hDiv := hN.div hB hb
  have e : centralFD p =
      ((anumD ((p - 0.5) * (p - 0.5)) * (p - 0.5 + (p - 0.5)) * (p - 0.5) +
          anum ((p - 0.5) * (p - 0.5)) * 1) * bden ((p - 0.5) * (p - 0.5)) -
        anum ((p - 0.5) * (p - 0.5)) * (p - 0.5) *
          (bdenD ((p - 0.5) * (p - 0.5)) * (p - 0.5 + (p - 0.5)))) /
        bden ((p - 0.5) * (p - 0.5)) ^ 2 := by
    unfold centralFD
    ring
  rw [e]
  exact hDiv

lemma central_r_bound {p : ℝ} (h1 : 1 / 2 ≤ p) (h2 : p ≤ phigh) :
    (p - 0.5) * (p - 0.5) ≤ 0.2263380625 := by
  unfold phigh plow at h2
  nlinarith

lemma centralF_strictMono : StrictMonoOn centralF (Set.Icc (1 / 2 : ℝ) phigh) := by
  have hcont : ContinuousOn centralF (Set.Icc (1 / 2 : ℝ) phigh) := by
    intro p hp
    have hb := (bden_pos (central_r_bound hp.1 hp.2)).ne'
    exact (centralF_hasDeriv hb).continuousAt.continuousWithinAt
  have hmem : ∀ p ∈ interior (Set.Icc (1 / 2 : ℝ) phigh),
      HasDerivWithinAt centralF (centralFD p) (interior (Set.Icc (1 / 2 : ℝ) phigh)) p := by
    intro p hp
    rw [interior_Icc] at hp
    have hb := (bden_pos (central_r_bound hp.1.le hp.2.le)).ne'
    exact (centralF_hasDeriv hb).hasDerivWithinAt
  have hpos : ∀ p ∈ interior (Set.Icc (1 / 2 : ℝ) phigh), 0 < centralFD p := by
    intro p hp
    rw [interior_Icc] at hp
    have hrb := central_r_bound hp.1.le hp.2.le
    unfold centralFD
    exact div_pos (NN_pos hrb) (pow_pos (bden_pos hrb) 2)
  exact strictMonoOn_of_hasDerivWithinAt_pos (convex_Icc _ _) hcont hmem hpos

lemma centralF_mono_le {u v : ℝ} (hu : 1 / 2 ≤ u) (huv : u ≤ v) (hv : v ≤ phigh) :
    centralF u ≤ centralF v := by
  rcases eq_or_lt_of_le huv with rfl | hlt
  · exact le_rfl
  · exact (centralF_strictMono ⟨hu, le_trans huv hv⟩ ⟨le_trans hu huv, hv⟩ hlt).le

/-- Upper-tail value function of the quantile approximation. -/
noncomputable def tailG (s : ℝ) : ℝ := (-(cnum s)) / cden s

/-- Derivative of `tailG`. -/
noncomputable def tailGD (s : ℝ) : ℝ :=
  ((-(cnumD s)) * cden s - (-(cnum s)) * cdenD s) / (cden s) ^ 2

lemma tailG_hasDeriv {s : ℝ} (hc : cden s ≠ 0) : HasDerivAt tailG (tailGD s) s := by
  have h1 : HasDerivAt (fun y : ℝ => -(cnum y)) (-(cnumD s)) s := (cnum_deriv s).neg
  have h2 := cden_deriv s
  unfold tailGD
  exact h1.div h2 hc

lemma tailG_strictMono : StrictMonoOn tailG (Set.Ici (2.5 : ℝ)) := by
  have hcont : ContinuousOn tailG (Set.Ici (2.5 : ℝ)) := by
    intro s hs
    have hc := (cden_pos (le_trans (by norm_num) (Set.mem_Ici.mp hs))).ne'
    exact (tailG_hasDeriv hc).continuousAt.continuousWithinAt
  have hmem : ∀ s ∈ interior (Set.Ici (2.5 : ℝ)),
      HasDerivWithinAt tailG (tailGD s) (interior (Set.Ici (2.5 : ℝ))) s := by
    intro s hs
    rw [interior_Ici] at hs
    have hc := (cden_pos (le_trans (by norm_num) (Set.mem_Ioi.mp hs).le)).ne'
    exact (tailG_hasDeriv hc).hasDerivWithinAt
  have hpos : ∀ s ∈ interior (Set.Ici (2.5 : ℝ)), 0 < tailGD s := by
    intro s hs
    rw [interior_Ici] at hs
    have hs' : (2.5 : ℝ) ≤ s := (Set.mem_Ioi.mp hs).le
    have hnum : 0 < (-(cnumD s)) * cden s - (-(cnum s)) * cdenD s := by
      nlinarith [MM_neg hs']
    unfold tailGD
    exact div_pos hnum (pow_pos (cden_pos (by linarith)) 2)
  exact strictMonoOn_of_hasDerivWithinAt_pos (convex_Ici _) hcont hmem hpos

lemma tailG_mono_le {u v : ℝ} (hu : 2.5 ≤ u) (huv : u ≤ v) : tailG u ≤ tailG v := by
  rcases eq_or_lt_of_le huv with rfl | hlt
  · exact le_rfl
  · exact (tailG_strictMono (Set.mem_Ici.mpr hu)
      (Set.mem_Ici.mpr (le_trans hu huv)) hlt).le

/-- Across the break-point: the central-regime value at `phigh` is below the
upper-tail value at the certified lower bound `2.72739387` of
`sqrt(-2 log plow)`.  Exact rational arithmetic. -/
lemma cross_le : centralF phigh ≤ tailG 2.72739387 := by
  unfold centralF tailG phigh plow
  have hb : (0 : ℝ) <
      bden ((1 - 0.02425 - 0.5) * (1 - 0.02425 - 0.5)) := by unfold bden; norm_num
  have hc : (0 : ℝ) < cden 2.72739387 := by unfold cden; norm_num
  rw [div_le_div_iff hb hc]
  unfold anum bden cnum cden
  norm_num

/-- Monotonicity of the quantile approximation on `[1/2, 1)`, across all
regime boundaries. -/
lemma zval_mono {p1 p2 : ℝ} (h1 : 1 / 2 ≤ p1) (h12 : p1 ≤ p2) (h2 : p2 < 1) :
    normal_quantile_val p1 ≤ normal_quantile_val p2 := by
  have hA1 : ¬p1 < plow := by unfold plow; push_neg; linarith
  have hA2 : ¬p2 < plow := by unfold plow; push_neg; linarith
  by_cases hB2 : p2 > phigh
  · rw [zval_tail_eq hB2]
    have hs2 : (2.72739387 : ℝ) ≤ Real.sqrt (-2 * Real.log (1 - p2)) :=
      tail_s_ge hB2 h2
    by_cases hB1 : p1 > phigh
    · rw [zval_tail_eq hB1]
      have h1p2 : (0 : ℝ) < 1 - p2 := by linarith
      have hss : Real.sqrt (-2 * Real.log (1 - p1)) ≤
          Real.sqrt (-2 * Real.log (1 - p2)) := by
        apply Real.sqrt_le_sqrt
        have hlog : Real.log (1 - p2) ≤ Real.log (1 - p1) :=
          Real.log_le_log h1p2 (by linarith)
        linarith
      have hs1 : (2.72739387 : ℝ) ≤ Real.sqrt (-2 * Real.log (1 - p1)) :=
        tail_s_ge hB1 (by linarith)
      exact tailG_mono_le (by linarith) hss
    · push_neg at hB1
      rw [zval_central_eq hA1 (not_lt.mpr hB1)]
      calc anum ((p1 - 0.5) * (p1 - 0.5)) * (p1 - 0.5) / bden ((p1 - 0.5) * (p1 - 0.5))
          = centralF p1 := rfl
        _ ≤ centralF phigh := centralF_mono_le h1 hB1 le_rfl
        _ ≤ tailG 2.72739387 := cross_le
        _ ≤ tailG (Real.sqrt (-2 * Real.log (1 - p2))) :=
            tailG_mono_le (by norm_num) hs2
        _ = (-(cnum (Real.sqrt (-2 * Real.log (1 - p2))))) /
              cden (Real.sqrt (-2 * Real.log (1 - p2))) := rfl
  · push_neg at hB2
    have hB1 : ¬p1 > phigh := by push_neg; linarith
    rw [zval_central_eq hA1 hB1, zval_central_eq hA2 (not_lt.mpr hB2)]
    calc anum ((p1 - 0.5) * (p1 - 0.5)) * (p1 - 0.5) / bden ((p1 - 0.5) * (p1 - 0.5))
        = centralF p1 := rfl
      _ ≤ centralF p2 := centralF_mono_le h1 h12 hB2
      _ = anum ((p2 - 0.5) * (p2 - 0.5)) * (p2 - 0.5) /
            bden ((p2 - 0.5) * (p2 - 0.5)) := rfl

lemma wz_mono {c1 c2 : ℝ} (h0 : 0 < c1) (h12 : c1 ≤ c2) (h1 : c2 < 1) :
    wz c1 ≤ wz c2 := by
  unfold wz
  exact zval_mono (by linarith) (by linarith) (by linarith)

lemma upper_mono (phat w z1 z2 G1 G2 : ℝ) (hp0 : 0 ≤ phat) (hp1 : phat ≤ 1)
    (hw : 0 < w) (hz1 : 0 ≤ z1) (hz12 : z1 ≤ z2) (hG1 : 0 ≤ G1) (hG2 : 0 ≤ G2)
    (e1 : G1 * G1 = (phat * (1 - phat) + z1 * z1 * w / 4) * w)
    (e2 : G2 * G2 = (phat * (1 - phat) + z2 * z2 * w / 4) * w) :
    (phat + z1 * z1 * w / 2 + z1 * G1) / (1 + z1 * z1 * w) ≤
      (phat + z2 * z2 * w / 2 + z2 * G2) / (1 + z2 * z2 * w) := by
  have hz2 : 0 ≤ z2 := le_trans hz1 hz12
  have hd1 : (0 : ℝ) < 1 + z1 * z1 * w :=
    by nlinarith [mul_nonneg (mul_nonneg hz1 hz1) hw.le]
  have hd2 : (0 : ℝ) < 1 + z2 * z2 * w :=
    by nlinarith [mul_nonneg (mul_nonneg hz2 hz2) hw.le]
  have hV1 : 0 ≤ (1 - phat) + z1 * z1 * w / 2 - z1 * G1 := by
    have := core_upper phat w z1 G1 hp0 hp1 hw hz1 hG1 e1
    linarith
  have hU1 : 0 ≤ phat + z1 * z1 * w / 2 + z1 * G1 := by
    have h1 : 0 ≤ z1 * G1 := mul_nonneg hz1 hG1
    have h2 : 0 ≤ z1 * z1 * w / 2 := by positivity
    linarith
  have hfact : ((phat + z1 * z1 * w / 2 + z1 * G1) * (1 + z2 * z2 * w) -
        (phat + z2 * z2 * w / 2 - z2 * G2) * (1 + z1 * z1 * w)) *
      ((phat + z1 * z1 * w / 2 + z1 * G1) * (1 + z2 * z2 * w) -
        (phat + z2 * z2 * w / 2 + z2 * G2) * (1 + z1 * z1 * w)) =
      (z1 * z1 - z2 * z2) * ((1 + z2 * z2 * w) * w *
        (phat + z1 * z1 * w / 2 + z1 * G1) *
        ((1 - phat) + z1 * z1 * w / 2 - z1 * G1)) := by
    linear_combination (z1 * z1 * (1 + z1 * z1 * w) * (1 + z2 * z2 * w)) * e1 +
      (-(z2 * z2 * (1 + z1 * z1 * w) * (1 + z1 * z1 * w))) * e2
  have hzz : z1 * z1 - z2 * z2 ≤ 0 := by nlinarith [hz1, hz12]
  have hP : 0 ≤ (1 + z2 * z2 * w) * w * (phat + z1 * z1 * w / 2 + z1 * G1) *
      ((1 - phat) + z1 * z1 * w / 2 - z1 * G1) :=
    mul_nonneg (mul_nonneg (mul_nonneg hd2.le hw.le) hU1) hV1
  have hprod : ((phat + z1 * z1 * w / 2 + z1 * G1) * (1 + z2 * z2 * w) -
        (phat + z2 * z2 * w / 2 - z2 * G2) * (1 + z1 * z1 * w)) *
      ((phat + z1 * z1 * w / 2 + z1 * G1) * (1 + z2 * z2 * w) -
        (phat + z2 * z2 * w / 2 + z2 * G2) * (1 + z1 * z1 * w)) ≤ 0 := by
    rw [hfact]
    exact mul_nonpos_iff.mpr (Or.inr ⟨hzz, hP⟩)
  have hend : (phat + z1 * z1 * w / 2 + z1 * G1) * (1 + z2 * z2 * w) -
      (phat + z2 * z2 * w / 2 + z2 * G2) * (1 + z1 * z1 * w) ≤ 0 := by
    nlinarith [hprod, mul_nonneg (mul_nonneg hz2 hG2) hd1.le]
  rw [div_le_div_iff hd1 hd2]
  linarith [hend]

lemma lower_mono (phat w z1 z2 G1 G2 : ℝ) (hp0 : 0 ≤ phat) (hp1 : phat ≤ 1)
    (hw : 0 < w) (hz1 : 0 ≤ z1) (hz12 : z1 ≤ z2) (hG1 : 0 ≤ G1) (hG2 : 0 ≤ G2)
    (e1 : G1 * G1 = (phat * (1 - phat) + z1 * z1 * w / 4) * w)
    (e2 : G2 * G2 = (phat * (1 - phat) + z2 * z2 * w / 4) * w) :
    (phat + z2 * z2 * w / 2 - z2 * G2) / (1 + z2 * z2 * w) ≤
      (phat + z1 * z1 * w / 2 - z1 * G1) / (1 + z1 * z1 * w) := by
  have hz2 : 0 ≤ z2 := le_trans hz1 hz12
  have hd1 : (0 : ℝ) < 1 + z1 * z1 * w :=
    by nlinarith [mul_nonneg (mul_nonneg hz1 hz1) hw.le]
  have hd2 : (0 : ℝ) < 1 + z2 * z2 * w :=
    by nlinarith [mul_nonneg (mul_nonneg hz2 hz2) hw.le]
  have hL1 : 0 ≤ phat + z1 * z1 * w / 2 - z1 * G1 := by
    have := core_lower phat w z1 G1 hp0 hp1 hw hz1 hG1 e1
    linarith
  have hV1p : 0 ≤ (1 - phat) + z1 * z1 * w / 2 + z1 * G1 := by
    have h1 : 0 ≤ z1 * G1 := mul_nonneg hz1 hG1
    have h2 : 0 ≤ z1 * z1 * w / 2 := by positivity
    linarith
  have hfact : ((phat + z1 * z1 * w / 2 - z1 * G1) * (1 + z2 * z2 * w) -
        (phat + z2 * z2 * w / 2 - z2 * G2) * (1 + z1 * z1 * w)) *
      ((phat + z1 * z1 * w / 2 - z1 * G1) * (1 + z2 * z2 * w) -
        (phat + z2 * z2 * w / 2 + z2 * G2) * (1 + z1 * z1 * w)) =
      (z1 * z1 - z2 * z2) * ((1 + z2 * z2 * w) * w *
        (phat + z1 * z1 * w / 2 - z1 * G1) *
        ((1 - phat) + z1 * z1 * w / 2 + z1 * G1)) := by
    linear_combination (z1 * z1 * (1 + z1 * z1 * w) * (1 + z2 * z2 * w)) * e1 +
      (-(z2 * z2 * (1 + z1 * z1 * w) * (1 + z1 * z1 * w))) * e2
  have hzz : z1 * z1 - z2 * z2 ≤ 0 := by nlinarith [hz1, hz12]
  have hP : 0 ≤ (1 + z2 * z2 * w) * w * (phat + z1 * z1 * w / 2 - z1 * G1) *
      ((1 - phat) + z1 * z1 * w / 2 + z1 * G1) :=
    mul_nonneg (mul_nonneg (mul_nonneg hd2.le hw.le) hL1) hV1p
  have hprod : ((phat + z1 * z1 * w / 2 - z1 * G1) * (1 + z2 * z2 * w) -
        (phat + z2 * z2 * w / 2 - z2 * G2) * (1 + z1 * z1 * w)) *
      ((phat + z1 * z1 * w / 2 - z1 * G1) * (1 + z2 * z2 * w) -
        (phat + z2 * z2 * w / 2 + z2 * G2) * (1 + z1 * z1 * w)) ≤ 0 := by
    rw [hfact]
    exact mul_nonpos_iff.mpr (Or.inr ⟨hzz, hP⟩)
  have hend : 0 ≤ (phat + z1 * z1 * w / 2 - z1 * G1) * (1 + z2 * z2 * w) -
      (phat + z2 * z2 * w / 2 - z2 * G2) * (1 + z1 * z1 * w) := by
    nlinarith [hprod, mul_nonneg (mul_nonneg hz2 hG2) hd1.le]
  rw [div_le_div_iff hd2 hd1]
  linarith [hend]

/-- Claim C6: for every fixed successes `k` and trials `n` (`0 ≤ k ≤ n`,
`n > 0`) and every pair of confidence levels `c1 ≤ c2` in `(0,1)`, the
interval width `high - low` returned by `wilson_ci(k, n, c2)` is at least
the width returned by `wilson_ci(k, n, c1)`. -/
theorem wilson_ci_width_mono (k n : ℤ) (c1 c2 : ℝ) (hk0 : 0 ≤ k) (hkn : k ≤ n)
    (hn : 0 < n) (hc0 : 0 < c1) (hcc : c1 ≤ c2) (hc1 : c2 < 1) :
    ∃ lo1 hi1 lo2 hi2, wilson_ci k n c1 = some (lo1, hi1) ∧
      wilson_ci k n c2 = some (lo2, hi2) ∧ hi1 - lo1 ≤ hi2 - lo2 := by
  have hc2pos : 0 < c2 := lt_of_lt_of_le hc0 hcc
  have hc1lt : c1 < 1 := lt_of_le_of_lt hcc hc1
  refine ⟨_, _, _, _, wilson_ci_eq hn hk0 hkn hc0 hc1lt,
    wilson_ci_eq hn hk0 hkn hc2pos hc1, ?_⟩
  have hncast : (0 : ℝ) < (n : ℝ) := by exact_mod_cast hn
  have hphat0 : (0 : ℝ) ≤ (k : ℝ) / (n : ℝ) :=
    div_nonneg (by exact_mod_cast hk0) hncast.le
  have hphat1 : (k : ℝ) / (n : ℝ) ≤ 1 := by
    rw [div_le_one hncast]; exact_mod_cast hkn
  have hnn : (1 : ℝ) ≤ (n : ℝ) := by exact_mod_cast hn
  have hz1 := wz_nonneg hc0 hc1lt
  have hz12 := wz_mono hc0 hcc hc1
  obtain ⟨a1, a2, a3, a4, a5⟩ :=
    wilson_bundle ((k : ℝ) / (n : ℝ)) (n : ℝ) (wz c1) hphat0 hphat1 hnn hz1
  obtain ⟨b1, b2, b3, b4, b5⟩ :=
    wilson_bundle ((k : ℝ) / (n : ℝ)) (n : ℝ) (wz c2) hphat0 hphat1 hnn
      (le_trans hz1 hz12)
  rw [max_eq_right a2, min_eq_right a3, max_eq_right b2, min_eq_right b3]
  have hw : (0 : ℝ) < 1 / (n : ℝ) := by positivity
  have ht : 0 ≤ ((k : ℝ) / (n : ℝ)) * (1 - (k : ℝ) / (n : ℝ)) :=
    mul_nonneg hphat0 (by linarith)
  have hE1 : 0 ≤ (((k : ℝ) / (n : ℝ)) * (1 - (k : ℝ) / (n : ℝ)) +
      wz c1 * wz c1 * (1 / (n : ℝ)) / 4) * (1 / (n : ℝ)) := by
    apply mul_nonneg _ hw.le
    have : 0 ≤ wz c1 * wz c1 * (1 / (n : ℝ)) / 4 := by
      have := mul_nonneg (mul_nonneg hz1 hz1) hw.le
      linarith
    linarith
  have hE2 : 0 ≤ (((k : ℝ) / (n : ℝ)) * (1 - (k : ℝ) / (n : ℝ)) +
      wz c2 * wz c2 * (1 / (n : ℝ)) / 4) * (1 / (n : ℝ)) := by
    apply mul_nonneg _ hw.le
    have : 0 ≤ wz c2 * wz c2 * (1 / (n : ℝ)) / 4 := by
      have := mul_nonneg (mul_nonneg (le_trans hz1 hz12) (le_trans hz1 hz12)) hw.le
      linarith
    linarith
  have hupper := upper_mono ((k : ℝ) / (n : ℝ)) (1 / (n : ℝ)) (wz c1) (wz c2)
    (Real.sqrt ((((k : ℝ) / (n : ℝ)) * (1 - (k : ℝ) / (n : ℝ)) +
        wz c1 * wz c1 * (1 / (n : ℝ)) / 4) * (1 / (n : ℝ))))
    (Real.sqrt ((((k : ℝ) / (n : ℝ)) * (1 - (k : ℝ) / (n : ℝ)) +
        wz c2 * wz c2 * (1 / (n : ℝ)) / 4) * (1 / (n : ℝ))))
    hphat0 hphat1 hw hz1 hz12 (Real.sqrt_nonneg _) (Real.sqrt_nonneg _)
    (Real.mul_self_sqrt hE1) (Real.mul_self_sqrt hE2)
  have hlower := lower_mono ((k : ℝ) / (n : ℝ)) (1 / (n : ℝ)) (wz c1) (wz c2)
    (Real.sqrt ((((k : ℝ) / (n : ℝ)) * (1 - (k : ℝ) / (n : ℝ)) +
        wz c1 * wz c1 * (1 / (n : ℝ)) / 4) * (1 / (n : ℝ))))
    (Real.sqrt ((((k : ℝ) / (n : ℝ)) * (1 - (k : ℝ) / (n : ℝ)) +
        wz c2 * wz c2 * (1 / (n : ℝ)) / 4) * (1 / (n : ℝ))))
    hphat0 hphat1 hw hz1 hz12 (Real.sqrt_nonneg _) (Real.sqrt_nonneg _)
    (Real.mul_self_sqrt hE1) (Real.mul_self_sqrt hE2)
  have hsum1 : wcenter ((k : ℝ) / (n : ℝ)) (n : ℝ) (wz c1) +
      whalf ((k : ℝ) / (n : ℝ)) (n : ℝ) (wz c1) =
      (((k : ℝ) / (n : ℝ)) + wz c1 * wz c1 * (1 / (n : ℝ)) / 2 +
        wz c1 * Real.sqrt ((((k : ℝ) / (n : ℝ)) * (1 - (k : ℝ) / (n : ℝ)) +
          wz c1 * wz c1 * (1 / (n : ℝ)) / 4) * (1 / (n : ℝ)))) /
        (1 + wz c1 * wz c1 * (1 / (n : ℝ))) := by
    rw [wcenter_w _ _ _ hncast.ne', whalf_w _ _ _ hncast.ne', div_add_div_same]
  have hsum2 : wcenter ((k : ℝ) / (n : ℝ)) (n : ℝ) (wz c2) +
      whalf ((k : ℝ) / (n : ℝ)) (n : ℝ) (wz c2) =
      (((k : ℝ) / (n : ℝ)) + wz c2 * wz c2 * (1 / (n : ℝ)) / 2 +
        wz c2 * Real.sqrt ((((k : ℝ) / (n : ℝ)) * (1 - (k : ℝ) / (n : ℝ)) +
          wz c2 * wz c2 * (1 / (n : ℝ)) / 4) * (1 / (n : ℝ)))) /
        (1 + wz c2 * wz c2 * (1 / (n : ℝ))) := by
    rw [wcenter_w _ _ _ hncast.ne', whalf_w _ _ _ hncast.ne', div_add_div_same]
  have hsub1 : wcenter ((k : ℝ) / (n : ℝ)) (n : ℝ) (wz c1) -
      whalf ((k : ℝ) / (n : ℝ)) (n : ℝ) (wz c1) =
      (((k : ℝ) / (n : ℝ)) + wz c1 * wz c1 * (1 / (n : ℝ)) / 2 -
        wz c1 * Real.sqrt ((((k : ℝ) / (n : ℝ)) * (1 - (k : ℝ) / (n : ℝ)) +
          wz c1 * wz c1 * (1 / (n : ℝ)) / 4) * (1 / (n : ℝ)))) /
        (1 + wz c1 * wz c1 * (1 / (n : ℝ))) := by
    rw [wcenter_w _ _ _ hncast.ne', whalf_w _ _ _ hncast.ne', div_sub_div_same]
  have hsub2 : wcenter ((k : ℝ) / (n : ℝ)) (n : ℝ) (wz c2) -
      whalf ((k : ℝ) / (n : ℝ)) (n : ℝ) (wz c2) =
      (((k : ℝ) / (n : ℝ)) + wz c2 * wz c2 * (1 / (n : ℝ)) / 2 -
        wz c2 * Real.sqrt ((((k : ℝ) / (n : ℝ)) * (1 - (k : ℝ) / (n : ℝ)) +
          wz c2 * wz c2 * (1 / (n : ℝ)) / 4) * (1 / (n : ℝ)))) /
        (1 + wz c2 * wz c2 * (1 / (n : ℝ))) := by
    rw [wcenter_w _ _ _ hncast.ne', whalf_w _ _ _ hncast.ne', div_sub_div_same]
  rw [hsum1, hsum2, hsub1, hsub2] at *
  linarith [hupper, hlower]

theorem wilson_ci_width_mono_witness :
    ∃ lo1 hi1 lo2 hi2, wilson_ci 1 2 (1 / 4) = some (lo1, hi1) ∧
      wilson_ci 1 2 (1 / 2) = some (lo2, hi2) ∧ hi1 - lo1 ≤ hi2 - lo2 :=
  wilson_ci_width_mono 1 2 (1 / 4) (1 / 2) (by norm_num) (by norm_num)
    (by norm_num) (by norm_num) (by norm_num) (by norm_num)

/-!
CLI layer of the script: `parse_result` over `List Char` (ASCII model of
Python `str.strip`, `split('=', 1)` and the regex `(\d+)\s*/\s*(\d+)`),
and `main` over a record mirroring the parsed argparse namespace.  A raised
exception is modelled by `Except.error`; the printed table is modelled by
the per-row data each cell is rendered from (`fmt_percent` receives the
proportion and the digit count; the `×100` scaling is part of the
`asPercent` rendering).
-/

def pyStripChar (ch : Char) : Bool :=
  ch == ' ' || ch == '\t' || ch == '\n' || ch == '\r' || ch == '\x0b' || ch == '\x0c'

/-- Python `str.strip()` (ASCII whitespace model). -/
def pyStrip (l : List Char) : List Char :=
  ((l.dropWhile pyStripChar).reverse.dropWhile pyStripChar).reverse

/-- `int()` on a nonempty digit string. -/
def digitsVal (l : List Char) : ℕ :=
  l.foldl (fun a ch => 10 * a + (ch.toNat - 48)) 0

/-- The `Result` dataclass of the source. -/
structure Result where
  label : List Char
  k : ℕ
  n : ℕ

/-- `re.fullmatch(r"(\d+)\s*/\s*(\d+)", frac)`: the two captured groups,
or `none` when the match fails. -/
def matchFrac (l : List Char) : Option (ℕ × ℕ) :=
  let d1 := l.takeWhile Char.isDigit
  let r1 := (l.dropWhile Char.isDigit).dropWhile pyStripChar
  if d1.isEmpty then none
  else
    match r1 with
    | '/' :: r2 =>
      let r3 := r2.dropWhile pyStripChar
      let d2 := r3.takeWhile Char.isDigit
      let r4 := r3.dropWhile Char.isDigit
      if d2.isEmpty then none
      else if r4.isEmpty then some (digitsVal d1, digitsVal d2)
      else none
    | _ => none

/-- `parse_result` of the source.  The captured `k` is a digit string, so
the source's `k < 0` test can never fire; only `k > n` remains. -/
def parse_result (s : String) : Except String Result :=
  let t := pyStrip s.data
  if (t.contains '=') = false then
    Except.error "Missing = separator. Expected format Label=k/n"
  else
    let label := pyStrip (t.takeWhile (fun ch => !(ch == '=')))
    let frac := pyStrip ((t.dropWhile (fun ch => !(ch == '='))).tail)
    match matchFrac frac with
    | none => Except.error "Bad fraction. Expected k/n like 28/42"
    | some (k, n) =>
      if n ≤ 0 then Except.error "n must be greater than 0"
      else if k > n then Except.error "k must be between 0 and n"
      else
        Except.ok ⟨if label.isEmpty then Nat.toDigits 10 k ++ '/' :: Nat.toDigits 10 n
                   else label, k, n⟩

/-- Parsed argparse namespace of `main`. -/
structure Args where
  results : List String
  conf : ℝ
  digits : ℤ
  as_percent : Bool
  as_prop : Bool

/-- Data from which one table cell pair (`p_str`, `ci_str`) is rendered. -/
inductive PCell where
  | asProp (phat low high : ℝ) (digits : ℤ)
  | asPercent (phat low high : ℝ) (digits : ℤ)

/-- Data from which one table row is rendered. -/
structure Row where
  label : List Char
  k : ℕ
  n : ℕ
  cell : PCell

/-- The `for s in args.results: parsed.append(parse_result(s))` loop;
the first raised exception propagates. -/
def parseAll : List String → Except String (List Result)
  | [] => Except.ok []
  | s :: rest =>
    match parse_result s with
    | Except.error e => Except.error e
    | Except.ok r =>
      match parseAll rest with
      | Except.error e => Except.error e
      | Except.ok rs => Except.ok (r :: rs)

/-- The row-building loop of `main`; a `wilson_ci` failure propagates. -/
noncomputable def computeRows (conf : ℝ) (useProp : Bool) (dg : ℤ) :
    List Result → Except String (List Row)
  | [] => Except.ok []
  | r :: rest =>
    match wilson_ci (r.k : ℤ) (r.n : ℤ) conf with
    | none => Except.error "conf must be in (0,1)"
    | some (low, high) =>
      match computeRows conf useProp dg rest with
      | Except.error e => Except.error e
      | Except.ok rows =>
        Except.ok (⟨r.label, r.k, r.n,
          if useProp then PCell.asProp ((r.k : ℝ) / (r.n : ℝ)) low high dg
          else PCell.asPercent ((r.k : ℝ) / (r.n : ℝ)) low high dg⟩ :: rows)

/-- Python `int()` truncation toward zero. -/
noncomputable def pyInt (x : ℝ) : ℤ := if 0 ≤ x then ⌊x⌋ else -⌊-x⌋

/-- Observable outcome of one `main` run: exit path plus everything the
table rendering depends on. -/
inductive MainResult where
  | usageError (msg : String)
  | exception (msg : String)
  | ok (useProp : Bool) (confPct : ℤ) (rows : List Row)

def exitCode : MainResult → ℕ
  | MainResult.usageError _ => 2
  | MainResult.exception _ => 1
  | MainResult.ok _ _ _ => 0

def errMsg : MainResult → String
  | MainResult.usageError m => m
  | MainResult.exception m => m
  | MainResult.ok _ _ _ => ""

/-- `main` of the source, from the parsed argparse namespace on. -/
noncomputable def mainModel (args : Args) : MainResult :=
  if args.as_percent && args.as_prop then
    MainResult.usageError "Error: Choose only one of --as-percent or --as-prop."
  else
    match parseAll args.results with
    | Except.error e => MainResult.exception e
    | Except.ok parsed =>
      match computeRows args.conf args.as_prop args.digits parsed with
      | Except.error e => MainResult.exception e
      | Except.ok rows => MainResult.ok args.as_prop (pyInt (args.conf * 100)) rows

lemma parse_result_error_ne {s e : String} (h : parse_result s = Except.error e) :
    e ≠ "" := by
  unfold parse_result at h
  dsimp only at h
  split at h
  · injection h with h2
    subst h2
    decide
  · split at h
    · injection h with h2
      subst h2
      decide
    · split at h
      · injection h with h2
        subst h2
        decide
      · split at h
        · injection h with h2
          subst h2
          decide
        · exact absurd h (by simp)

lemma parseAll_error_ne : ∀ {ss : List String} {e : String},
    parseAll ss = Except.error e → e ≠ "" := by
  intro ss
  induction ss with
  | nil => intro e h; simp [parseAll] at h
  | cons s rest ih =>
    intro e h
    unfold parseAll at h
    cases hps : parse_result s with
    | error e1 =>
      rw [hps] at h
      simp only [] at h
      injection h with h2
      subst h2
      exact parse_result_error_ne hps
    | ok r =>
      rw [hps] at h
      simp only [] at h
      cases hpa : parseAll rest with
      | error e2 =>
        rw [hpa] at h
        simp only [] at h
        injection h with h2
        subst h2
        exact ih hpa
      | ok rs =>
        rw [hpa] at h
        simp at h

lemma computeRows_error_ne : ∀ {conf : ℝ} {useProp : Bool} {dg : ℤ}
    {rs : List Result} {e : String},
    computeRows conf useProp dg rs = Except.error e → e ≠ "" := by
  intro conf useProp dg rs
  induction rs with
  | nil => intro e h; simp [computeRows] at h
  | cons r rest ih =>
    intro e h
    unfold computeRows at h
    cases hci : wilson_ci (r.k : ℤ) (r.n : ℤ) conf with
    | none =>
      rw [hci] at h
      simp only [] at h
      injection h with h2
      subst h2
      decide
    | some pair =>
      rw [hci] at h
      cases hcr : computeRows conf useProp dg rest with
      | error e2 =>
        rw [hcr] at h
        simp only [] at h
        injection h with h2
        subst h2
        exact ih hcr
      | ok rows =>
        rw [hcr] at h
        simp at h

/-- Claim C9: the process exits with status 0 when all input items parse
and all intervals are computed, and with a non-zero status on any
validation failure — in particular on a malformed item or when both
output-mode flags are given together — writing a human-readable
(nonempty) error message to the error stream in the failure cases. -/
theorem main_exit_contract (args : Args) :
    (exitCode (mainModel args) = 0 ↔
      ((args.as_percent && args.as_prop) = false ∧
        ∃ parsed rows, parseAll args.results = Except.ok parsed ∧
          computeRows args.conf args.as_prop args.digits parsed = Except.ok rows)) ∧
    (exitCode (mainModel args) ≠ 0 → errMsg (mainModel args) ≠ "") := by
  by_cases hb : (args.as_percent && args.as_prop) = true
  · have hm : mainModel args =
        MainResult.usageError "Error: Choose only one of --as-percent or --as-prop." := by
      unfold mainModel
      rw [if_pos hb]
    rw [hm]
    constructor
    · simp [exitCode, hb]
    · intro _
      simp only [errMsg]
      decide
  · have hb' : (args.as_percent && args.as_prop) = false := by
      revert hb
      cases args.as_percent && args.as_prop <;> simp
    cases hpa : parseAll args.results with
    | error e =>
      have hm : mainModel args = MainResult.exception e := by
        unfold mainModel
        rw [if_neg hb]
        simp only [hpa]
      rw [hm]
      constructor
      · constructor
        · intro h; simp [exitCode] at h
        · rintro ⟨-, parsed, rows, hp, -⟩
          exact absurd hp (by simp)
      · intro _
        simp only [errMsg]
        exact parseAll_error_ne hpa
    | ok parsed =>
      cases hcr : computeRows args.conf args.as_prop args.digits parsed with
      | error e =>
        have hm : mainModel args = MainResult.exception e := by
          unfold mainModel
          rw [if_neg hb]
          simp only [hpa, hcr]
        rw [hm]
        constructor
        · constructor
          · intro h; simp [exitCode] at h
          · rintro ⟨-, parsed2, rows, hp, hr⟩
            injection hp with hp2
            subst hp2
            rw [hcr] at hr
            exact absurd hr (by simp)
        · intro _
          simp only [errMsg]
          exact computeRows_error_ne hcr
      | ok rows =>
        have hm : mainModel args =
            MainResult.ok args.as_prop (pyInt (args.conf * 100)) rows := by
          unfold mainModel
          rw [if_neg hb]
          simp only [hpa, hcr]
        rw [hm]
        constructor
        · constructor
          · intro _
            exact ⟨hb', parsed, rows, rfl, hcr⟩
          · intro _
            rfl
        · intro h
          exact absurd rfl h

theorem main_exit_contract_witness :
    (exitCode (mainModel (Args.mk ["a=1/2"] 0.95 2 false false)) = 0 ↔
      (((Args.mk ["a=1/2"] 0.95 2 false false).as_percent &&
          (Args.mk ["a=1/2"] 0.95 2 false false).as_prop) = false ∧
        ∃ parsed rows,
          parseAll (Args.mk ["a=1/2"] 0.95 2 false false).results = Except.ok parsed ∧
          computeRows (Args.mk ["a=1/2"] 0.95 2 false false).conf
            (Args.mk ["a=1/2"] 0.95 2 false false).as_prop
            (Args.mk ["a=1/2"] 0.95 2 false false).digits parsed = Except.ok rows)) ∧
    (exitCode (mainModel (Args.mk ["a=1/2"] 0.95 2 false false)) ≠ 0 →
      errMsg (mainModel (Args.mk ["a=1/2"] 0.95 2 false false)) ≠ "") :=
  main_exit_contract (Args.mk ["a=1/2"] 0.95 2 false false)

/-- Claim C10: the `--as-percent` flag on its own has no effect: with
`as_prop` absent (false), toggling `as_percent` leaves the observable
outcome of `main` — exit path and the whole printed table — unchanged.
(Its only observable effect is the conflict error together with
`--as-prop`.) -/
theorem as_percent_no_effect (res : List String) (conf : ℝ) (dg : ℤ) :
    mainModel (Args.mk res conf dg true false) =
      mainModel (Args.mk res conf dg false false) := rfl
